import Mathlib

/-!
Shallow embedding of `module_manager.py` (maya-module-manager).

Lines of a module (`.mod`) descriptor file are modelled as `List Char`
(one entry per raw line of the file, without its `'\n'` terminator; the
writer emits every line terminated by exactly one `'\n'`, so "equal up to
newline normalization" is exactly equality of the line lists).  Python
dicts whose keys and values are strings are modelled as association
lists with unique keys; Python dict equality (`==`) is key-set plus
per-key value equality, modelled by `dictEq`.

The embedding follows the source functions:
  `parse_module_line`   (module_manager.py lines 111-148)
  `read_module_file`    (lines 169-180): `readlines` + per-line `strip`
  `update_module_file`  (lines 183-225)
  `MayaModuleDetail` enabled state (line 279) and `is_compatible` (362-378)
  `get_module_file_paths` (lines 81-108), `MOD_EXTENSIONS` (line 28)

CPython details that matter and are modelled exactly:
  * `str.split()` splits on runs of whitespace and drops empty tokens.
  * `str.strip()` removes leading and trailing whitespace.
  * `for partition in reversed(partitions)` iterates a *live* reverse
    iterator over the list being mutated: it holds an index starting at
    `len - 1`, and at each step yields the element at that index of the
    *current* list if the index is in bounds (stopping otherwise), then
    decrements.  `list.remove(x)` removes the first occurrence of `x`.
  * dict assignment `d[k] = v` overwrites in place; `del d[k]` raises
    `KeyError` when `k` is absent (modelled by returning `none`).
-/

namespace ModuleManager

/-- A token / line / Python string: a list of characters. -/
abbrev Tok := List Char

/-- Convert a Lean string literal to the `List Char` model. -/
def str (s : String) : Tok := s.data

/-- Python `str.strip()`: remove leading and trailing whitespace. -/
def pystrip (l : Tok) : Tok :=
  ((l.dropWhile Char.isWhitespace).reverse.dropWhile Char.isWhitespace).reverse

/-- Helper for `pysplit`: accumulates the current (reversed) token. -/
def pysplitAux : Tok → Tok → List Tok
  | cur, [] => if cur = [] then [] else [cur.reverse]
  | cur, c :: rest =>
    if c.isWhitespace then
      if cur = [] then pysplitAux [] rest else cur.reverse :: pysplitAux [] rest
    else
      pysplitAux (c :: cur) rest

/-- Python `str.split()` with no argument: split on whitespace runs,
dropping empty tokens. -/
def pysplit (l : Tok) : List Tok := pysplitAux [] l

/-- A Python `dict` from strings to strings: association list, unique keys. -/
abbrev Dict := List (Tok × Tok)

/-- Python `d.get(k)` / `d[k]`: value of the first matching key. -/
def dlookup (k : Tok) : Dict → Option Tok
  | [] => none
  | (k₁, v) :: rest => if k₁ = k then some v else dlookup k rest

/-- Python `d[k] = v`: overwrite the value in place, or append the pair. -/
def dinsert (k v : Tok) : Dict → Dict
  | [] => [(k, v)]
  | (k₁, v₁) :: rest =>
    if k₁ = k then (k₁, v) :: rest else (k₁, v₁) :: dinsert k v rest

/-- Python `del d[k]` (on a dict with unique keys): drop the pair. -/
def ddel (k : Tok) : Dict → Dict
  | [] => []
  | (k₁, v₁) :: rest => if k₁ = k then rest else (k₁, v₁) :: ddel k rest

/-- Python `d1 == d2` for dicts: same key set, same value per key. -/
def dictEq (d₁ d₂ : Dict) : Bool :=
  d₁.all (fun kv => dlookup kv.1 d₂ = some kv.2) &&
    d₂.all (fun kv => dlookup kv.1 d₁ = some kv.2)

/-- `MODULE_ARGUMENTS` (module_manager.py lines 17-21). -/
def MODULE_ARGUMENTS : List Tok :=
  [str "MAYAVERSION", str "PLATFORM", str "LOCALE"]

/-- Python `list.remove(x)`: remove the first occurrence of `x`. -/
def removeFirst (x : Tok) : List Tok → List Tok
  | [] => []
  | y :: ys => if y = x then ys else y :: removeFirst x ys

/-- Inner loop of `parse_module_line` (lines 133-138): for the yielded
`partition`, try each argument key; on a prefix match record
`partition[len(argument)+1:]` under that key and remove the first
occurrence of `partition` from the token list. -/
def applyArguments (partition : Tok) : List Tok → List Tok → Dict → List Tok × Dict
  | [], parts, data => (parts, data)
  | a :: args, parts, data =>
    if a.isPrefixOf partition then
      applyArguments partition args (removeFirst partition parts)
        (dinsert a (partition.drop (a.length + 1)) data)
    else
      applyArguments partition args parts data

/-- Outer loop of `parse_module_line` (line 132):
`for partition in reversed(partitions)` over the mutating list.  The
iterator index starts at `len - 1`; each step yields the element at the
index of the current list when in bounds (stops otherwise), runs the
inner loop, and decrements. -/
def reversedLoop : Nat → List Tok → Dict → List Tok × Dict
  | 0, parts, data =>
    if h : 0 < parts.length then
      applyArguments (parts.get ⟨0, h⟩) MODULE_ARGUMENTS parts data
    else (parts, data)
  | idx + 1, parts, data =>
    if h : idx + 1 < parts.length then
      let pd := applyArguments (parts.get ⟨idx + 1, h⟩) MODULE_ARGUMENTS parts data
      reversedLoop idx pd.1 pd.2
    else (parts, data)

/-- `parse_module_line` (lines 111-148): `None` unless the line starts
with `+`/`-`; split into tokens; extract recognized `KEY=value` tokens
via the reversed loop; require exactly 4 remaining positional tokens,
stored as ENABLED, NAME, VERSION, PATH. -/
def parse_module_line (line : Tok) : Option Dict :=
  match line with
  | [] => none
  | c :: _ =>
    if c = '+' ∨ c = '-' then
      let partitions := pysplit line
      match reversedLoop (partitions.length - 1) partitions [] with
      | ([e, n, v, p], data) =>
        some (dinsert (str "PATH") p (dinsert (str "VERSION") v
          (dinsert (str "NAME") n (dinsert (str "ENABLED") e data))))
      | _ => none
    else none

/-- `read_module_file` (lines 169-180): `f.readlines()` followed by
`[x.strip() for x in lines]` — every raw line is stripped of leading and
trailing whitespace. -/
def read_module_file (lines : List Tok) : List Tok :=
  lines.map pystrip

/-- Body of the rewrite loop of `update_module_file` (lines 203-218):
parse the (stripped) line; if it parses and its identity (dict minus
ENABLED) equals the provided identity, emit `enabled + line[1:]`,
otherwise emit the line unchanged. -/
def process_line (enabled : Char) (data : Dict) (line : Tok) : Tok :=
  match parse_module_line line with
  | some line_data =>
    if dictEq data (ddel (str "ENABLED") line_data) then
      enabled :: line.drop 1
    else line
  | none => line

/-- `update_module_file` (lines 183-225).  `del data["ENABLED"]` mutates
the caller's dict (modelled by returning the mutated dict alongside the
written lines) and raises `KeyError` when the key is absent (modelled as
`none`).  The written file is the processed lines, each terminated by
exactly one `'\n'`. -/
def update_module_file (lines : List Tok) (state : Bool) (data : Dict) :
    Option (List Tok × Dict) :=
  let enabled : Char := if state then '+' else '-'
  match dlookup (str "ENABLED") data with
  | none => none
  | some _ =>
    let d := ddel (str "ENABLED") data
    some ((read_module_file lines).map (process_line enabled d), d)

/-- `MayaModuleDetail.__init__` line 279:
`enabled_state = data.get("ENABLED") == "+"`. -/
def enabled_state (data : Dict) : Bool :=
  decide (dlookup (str "ENABLED") data = some (str "+"))

/-- `MAYA_ARGUMENTS` (lines 22-26), parameterized by the current
environment's version / platform / locale strings. -/
def MAYA_ARGUMENTS (mayaversion platform locale : Tok) : Dict :=
  [(str "MAYAVERSION", mayaversion), (str "PLATFORM", platform),
   (str "LOCALE", locale)]

/-- Body of the `is_compatible` loop for one environment entry: a record
that carries the key must store exactly the environment's value; an
absent key imposes no constraint (`continue`). -/
def compatible_key (data : Dict) (kv : Tok × Tok) : Bool :=
  match dlookup kv.1 data with
  | none => true
  | some v => decide (v = kv.2)

/-- `MayaModuleDetail.is_compatible` (lines 362-378): conjunction of
`compatible_key` over all entries of `MAYA_ARGUMENTS`. -/
def is_compatible (env : Dict) (data : Dict) : Bool :=
  env.all (compatible_key data)

/-- One entry of the `MAYA_MODULE_PATH` search path: its path string,
whether `os.path.exists` holds, and the `os.listdir` file names. -/
structure SearchDir where
  path : Tok
  path_exists : Bool
  files : List Tok
deriving DecidableEq, Repr

/-- A discovered module file path, `os.path.normpath(os.path.join(path, f))`,
kept as the (directory, file name) pair; `os.path.basename` of it is the
file name, since `os.listdir` entries contain no separator. -/
structure ModPath where
  dir : Tok
  base : Tok
deriving DecidableEq, Repr

/-- `MOD_EXTENSIONS` (line 28): `("mod")` is the plain string `"mod"`,
not a tuple, so `f.lower().endswith(MOD_EXTENSIONS)` is a suffix test
against `"mod"`. -/
def MOD_EXTENSIONS : Tok := str "mod"

/-- Python `str.lower()` for the characters appearing in file names. -/
def pylower (t : Tok) : Tok := t.map Char.toLower

/-- The filter of line 101: keep `f` when `f.lower().endswith(MOD_EXTENSIONS)`
and not `f.startswith("moduleManager")`. -/
def is_module_file (f : Tok) : Bool :=
  MOD_EXTENSIONS.isSuffixOf (pylower f) && !((str "moduleManager").isPrefixOf f)

/-- The collection loop of `get_module_file_paths` (lines 90-103): skip
directories that do not exist, extend with the filtered listing. -/
def modules_unsorted : List SearchDir → List ModPath
  | [] => []
  | d :: dirs =>
    if d.path_exists then
      (d.files.filter is_module_file).map (fun f => ⟨d.path, f⟩) ++
        modules_unsorted dirs
    else
      modules_unsorted dirs

/-- The sort key of line 106: compare paths by file base name, with
Python's lexicographic-by-code-point string order. -/
def base_le (a b : ModPath) : Prop := a.base ≤ b.base

instance : DecidableRel base_le :=
  fun a b => inferInstanceAs (Decidable (a.base ≤ b.base))

instance : IsTotal ModPath base_le := ⟨fun a b => le_total a.base b.base⟩

instance : IsTrans ModPath base_le := ⟨fun _ _ _ => le_trans⟩

/-- `get_module_file_paths` (lines 81-108): collect then sort by base
name (`modules.sort(key=lambda x: os.path.basename(x))`, a stable sort,
modelled by stable insertion sort). -/
def get_module_file_paths (dirs : List SearchDir) : List ModPath :=
  List.insertionSort base_le (modules_unsorted dirs)

/-! ### Helper lemmas about the dict model -/

theorem dlookup_dinsert_self (k v : Tok) (d : Dict) :
    dlookup k (dinsert k v d) = some v := by
  induction d with
  | nil => simp [dinsert, dlookup]
  | cons kv rest ih =>
    obtain ⟨k₁, v₁⟩ := kv
    by_cases h : k₁ = k
    · subst h
      simp [dinsert, dlookup]
    · simp [dinsert, dlookup, h, ih]

theorem dlookup_dinsert_ne (k₁ k v : Tok) (d : Dict) (h : k₁ ≠ k) :
    dlookup k (dinsert k₁ v d) = dlookup k d := by
  induction d with
  | nil => simp [dinsert, dlookup, h]
  | cons kv rest ih =>
    obtain ⟨k₂, v₂⟩ := kv
    by_cases h₂ : k₂ = k₁
    · subst h₂
      simp [dinsert, dlookup, h]
    · by_cases h₃ : k₂ = k
      · subst h₃
        simp [dinsert, dlookup, h₂]
      · simp [dinsert, dlookup, h₂, h₃, ih]

theorem dlookup_eq_none (k : Tok) (d : Dict) (h : k ∉ d.map Prod.fst) :
    dlookup k d = none := by
  induction d with
  | nil => rfl
  | cons kv rest ih =>
    obtain ⟨k₁, v₁⟩ := kv
    simp only [List.map_cons, List.mem_cons] at h
    push_neg at h
    simp only [dlookup]
    rw [if_neg (fun hh => h.1 hh.symm), ih h.2]

theorem dlookup_ddel_self (k : Tok) (d : Dict)
    (hnd : (d.map Prod.fst).Nodup) : dlookup k (ddel k d) = none := by
  induction d with
  | nil => rfl
  | cons kv rest ih =>
    obtain ⟨k₁, v₁⟩ := kv
    simp only [List.map_cons, List.nodup_cons] at hnd
    by_cases h : k₁ = k
    · subst h
      simpa [ddel] using dlookup_eq_none k₁ rest hnd.1
    · simp [ddel, dlookup, h, ih hnd.2]

/-! ### Helper lemmas about token extraction in `parse_module_line` -/

theorem removeFirst_cons_ne (x y : Tok) (ys : List Tok) (h : y ≠ x) :
    removeFirst x (y :: ys) = y :: removeFirst x ys := by
  simp [removeFirst, h]

theorem reversedLoop_zero_pos (parts : List Tok) (data : Dict)
    (h : 0 < parts.length) :
    reversedLoop 0 parts data =
      applyArguments (parts.get ⟨0, h⟩) MODULE_ARGUMENTS parts data := by
  rw [reversedLoop, dif_pos h]

theorem reversedLoop_succ_pos (i : Nat) (parts : List Tok) (data : Dict)
    (h : i + 1 < parts.length) :
    reversedLoop (i + 1) parts data =
      reversedLoop i
        (applyArguments (parts.get ⟨i + 1, h⟩) MODULE_ARGUMENTS parts data).1
        (applyArguments (parts.get ⟨i + 1, h⟩) MODULE_ARGUMENTS parts data).2 := by
  rw [reversedLoop, dif_pos h]

theorem reversedLoop_succ_neg (i : Nat) (parts : List Tok) (data : Dict)
    (h : ¬ i + 1 < parts.length) :
    reversedLoop (i + 1) parts data = (parts, data) := by
  rw [reversedLoop, dif_neg h]

/-- The inner argument loop never removes a list head that no recognized
key is a prefix of; the head stays in place. -/
theorem applyArguments_head (args : List Tok) (partition : Tok)
    (parts : List Tok) (data : Dict) (hd : Tok) (tl : List Tok)
    (hp : parts = hd :: tl) (hargs : ∀ a ∈ args, a.isPrefixOf hd = false) :
    ∃ tl₂, (applyArguments partition args parts data).1 = hd :: tl₂ := by
  induction args generalizing parts data tl with
  | nil => exact ⟨tl, by simp [applyArguments, hp]⟩
  | cons a args ih =>
    by_cases hpre : a.isPrefixOf partition = true
    · have hne : hd ≠ partition := by
        intro hh
        have hfalse := hargs a (List.mem_cons_self a args)
        rw [hh, hpre] at hfalse
        exact absurd hfalse (by decide)
      have hrm : removeFirst partition parts = hd :: removeFirst partition tl := by
        rw [hp]
        exact removeFirst_cons_ne partition hd tl hne
      obtain ⟨tl₂, h₂⟩ := ih (removeFirst partition parts)
        (dinsert a (partition.drop (a.length + 1)) data)
        (removeFirst partition tl) hrm
        (fun b hb => hargs b (List.mem_cons_of_mem a hb))
      exact ⟨tl₂, by simpa [applyArguments, hpre] using h₂⟩
    · obtain ⟨tl₂, h₂⟩ := ih parts data tl hp
        (fun b hb => hargs b (List.mem_cons_of_mem a hb))
      exact ⟨tl₂, by simpa [applyArguments, hpre] using h₂⟩

/-- The reversed-iterator loop preserves a head token that no recognized
key is a prefix of. -/
theorem reversedLoop_head (idx : Nat) (parts : List Tok) (data : Dict)
    (hd : Tok) (tl : List Tok) (hp : parts = hd :: tl)
    (hargs : ∀ a ∈ MODULE_ARGUMENTS, a.isPrefixOf hd = false) :
    ∃ tl₂, (reversedLoop idx parts data).1 = hd :: tl₂ := by
  induction idx generalizing parts data tl with
  | zero =>
    subst hp
    have h : 0 < (hd :: tl).length := by simp
    obtain ⟨tl₂, h₂⟩ := applyArguments_head MODULE_ARGUMENTS
      ((hd :: tl).get ⟨0, h⟩) (hd :: tl) data hd tl rfl hargs
    exact ⟨tl₂, by rw [reversedLoop_zero_pos (hd :: tl) data h]; exact h₂⟩
  | succ i ih =>
    subst hp
    by_cases h : i + 1 < (hd :: tl).length
    · obtain ⟨tl₂, h₂⟩ := applyArguments_head MODULE_ARGUMENTS
        ((hd :: tl).get ⟨i + 1, h⟩) (hd :: tl) data hd tl rfl hargs
      obtain ⟨tl₃, h₃⟩ := ih
        (applyArguments ((hd :: tl).get ⟨i + 1, h⟩) MODULE_ARGUMENTS (hd :: tl) data).1
        (applyArguments ((hd :: tl).get ⟨i + 1, h⟩) MODULE_ARGUMENTS (hd :: tl) data).2
        tl₂ h₂
      exact ⟨tl₃, by rw [reversedLoop_succ_pos i (hd :: tl) data h]; exact h₃⟩
    · exact ⟨tl, by rw [reversedLoop_succ_neg i (hd :: tl) data h]⟩

/-- `pysplitAux` with a nonempty current token yields a first token that
extends the accumulated characters. -/
theorem pysplitAux_head (l : Tok) (cur : Tok) (hcur : cur ≠ []) :
    ∃ tl₂, (pysplitAux cur l).head? = some (cur.reverse ++ tl₂) := by
  induction l generalizing cur with
  | nil => exact ⟨[], by simp [pysplitAux, hcur]⟩
  | cons c rest ih =>
    by_cases hws : c.isWhitespace
    · exact ⟨[], by simp [pysplitAux, hws, hcur]⟩
    · obtain ⟨tl₂, h₂⟩ := ih (c :: cur) (by simp)
      refine ⟨[c] ++ tl₂, ?_⟩
      rw [show cur.reverse ++ ([c] ++ tl₂) = (c :: cur).reverse ++ tl₂ by simp]
      simpa [pysplitAux, hws] using h₂

/-- The first token produced by `str.split()` on a line that starts with
a non-whitespace character starts with that character. -/
theorem pysplit_head (c : Char) (rest : Tok) (hc : c.isWhitespace = false) :
    ∃ tl₂, (pysplit (c :: rest)).head? = some (c :: tl₂) := by
  obtain ⟨tl₂, h₂⟩ := pysplitAux_head rest [c] (by simp)
  exact ⟨tl₂, by simpa [pysplit, pysplitAux, hc] using h₂⟩

theorem head_cons_drop (l : Tok) (a : Char) (h : l.head? = some a) :
    a :: l.drop 1 = l := by
  cases l with
  | nil => simp at h
  | cons b t => simp_all

/-! ### Inversion lemmas for `parse_module_line` and `update_module_file` -/

/-- Successful parses decompose into marker check, token split, the
reversed extraction loop ending in exactly four positional tokens, and
the four `dinsert`s. -/
theorem parse_eq_some (line : Tok) (d : Dict)
    (h : parse_module_line line = some d) :
    ∃ c rest e n v p data₀, line = c :: rest ∧ (c = '+' ∨ c = '-') ∧
      reversedLoop ((pysplit line).length - 1) (pysplit line) [] =
        ([e, n, v, p], data₀) ∧
      d = dinsert (str "PATH") p (dinsert (str "VERSION") v
        (dinsert (str "NAME") n (dinsert (str "ENABLED") e data₀))) := by
  cases line with
  | nil => exact absurd h (by simp [parse_module_line])
  | cons c rest =>
    simp only [parse_module_line] at h
    split at h
    · split at h
      · next e n v p data₀ heq =>
        refine ⟨c, rest, e, n, v, p, data₀, rfl, by assumption, heq, ?_⟩
        exact (Option.some.inj h).symm
      · exact absurd h (by simp)
    · exact absurd h (by simp)

/-- A successful update deletes ENABLED from the caller's dict and maps
`process_line` over the stripped lines. -/
theorem update_eq_some (lines : List Tok) (state : Bool) (data : Dict)
    (content : List Tok) (d : Dict)
    (h : update_module_file lines state data = some (content, d)) :
    d = ddel (str "ENABLED") data ∧
      content = (lines.map pystrip).map
        (process_line (if state then '+' else '-') (ddel (str "ENABLED") data)) := by
  unfold update_module_file at h
  cases hk : dlookup (str "ENABLED") data with
  | none => rw [hk] at h; exact absurd h (by simp)
  | some v =>
    rw [hk] at h
    simp only [read_module_file, Option.some.injEq, Prod.mk.injEq] at h
    exact ⟨h.2.symm, h.1.symm⟩

/-- No recognized attribute key is a prefix of a token that starts with
the marker character `+` or `-`. -/
theorem not_prefix_of_marker (a : Tok) (ha : a ∈ MODULE_ARGUMENTS) (c : Char)
    (hc : c = '+' ∨ c = '-') (t : Tok) : a.isPrefixOf (c :: t) = false := by
  simp only [ MODULE_ARGUMENTS, List.mem_cons, List.not_mem_nil, or_false] at ha
  rcases hc with rfl | rfl <;> rcases ha with rfl | rfl | rfl <;> rfl

/-! ### Claim theorems -/

/-- C2 (amended): `parse_module_line` itself returns a record only for a
line whose own first character is `+` or `-`; any other line (whitespace
first character included) parses to `None`.  (The file pipeline,
however, strips each raw line before parsing — see the counterexample —
so a raw file line with whitespace before the marker is parsed as a
record and rewritten, not passed through unmodified.) -/
theorem parse_requires_marker_C2 (line : Tok)
    (h₁ : line.head? ≠ some '+') (h₂ : line.head? ≠ some '-') :
    parse_module_line line = none := by
  cases line with
  | nil => rfl
  | cons c rest =>
    simp only [List.head?_cons, ne_eq, Option.some.injEq] at h₁ h₂
    simp [parse_module_line, h₁, h₂]

/-- C2 counterexample: the raw file line `" +a b c d"` does not start
with `+`, yet the rewrite parses it (after the read-stage strip) as a
record and flips its marker — it is neither treated as opaque nor passed
through unmodified. -/
theorem whitespace_line_rewritten_counterexample :
    update_module_file [str " +a b c d"] false
        [(str "ENABLED", str "+a"), (str "NAME", str "b"),
         (str "VERSION", str "c"), (str "PATH", str "d")] =
      some ([str "-a b c d"],
        [(str "NAME", str "b"), (str "VERSION", str "c"), (str "PATH", str "d")]) ∧
      str "-a b c d" ≠ str " +a b c d" :=
  ⟨by decide, by decide⟩

/-- C2 witness: a comment line parses to `None`. -/
theorem parse_requires_marker_witness :
    parse_module_line (str "# comment") = none :=
  parse_requires_marker_C2 (str "# comment") (by decide) (by decide)

/-- C5 counterexample: a line with the four positional tokens plus two
`MAYAVERSION=` tokens is *not* treated as malformed: the token loop
removes both keyed tokens, exactly four positional tokens remain, and
the parse succeeds. -/
theorem duplicate_key_parses_counterexample :
    parse_module_line (str "+ n v p MAYAVERSION=1 MAYAVERSION=2") ≠ none := by
  decide

/-- C5 (amended): the extraction loop iterates tokens (in reverse), not
keys, so *every* token prefixed by a recognized key is extracted — with
two `MAYAVERSION=` tokens both are removed, the earlier token's value
overwrites the later one's, and the line parses into a record. -/
theorem duplicate_key_extraction_C5 :
    parse_module_line (str "+ n v p MAYAVERSION=1 MAYAVERSION=2") =
      some [(str "MAYAVERSION", str "1"), (str "ENABLED", str "+"),
            (str "NAME", str "n"), (str "VERSION", str "v"),
            (str "PATH", str "p")] := by
  decide

/-- C6 (amended): for every accepted line, the ENABLED positional field
is the first whitespace-delimited token: it *begins* with the line's
marker character (`+` or `-`) but need not be exactly that one-character
string, and the UI's enabled state is computed as `ENABLED == "+"`. -/
theorem parse_enabled_field_C6 (line : Tok) (d : Dict)
    (h : parse_module_line line = some d) :
    ∃ e, dlookup (str "ENABLED") d = some e ∧ e.head? = line.head? ∧
      (line.head? = some '+' ∨ line.head? = some '-') ∧
      (enabled_state d = true ↔ e = str "+") := by
  obtain ⟨c, rest, e, n, v, p, data₀, hline, hc, hloop, hdd⟩ := parse_eq_some line d h
  subst hline hdd
  have hlk : dlookup (str "ENABLED")
      (dinsert (str "PATH") p (dinsert (str "VERSION") v
        (dinsert (str "NAME") n (dinsert (str "ENABLED") e data₀)))) = some e := by
    rw [dlookup_dinsert_ne _ _ _ _ (by decide), dlookup_dinsert_ne _ _ _ _ (by decide),
      dlookup_dinsert_ne _ _ _ _ (by decide), dlookup_dinsert_self]
  have hcws : c.isWhitespace = false := by rcases hc with rfl | rfl <;> decide
  obtain ⟨tl₂, hsp⟩ := pysplit_head c rest hcws
  obtain ⟨tail, htail⟩ : ∃ tail, pysplit (c :: rest) = (c :: tl₂) :: tail := by
    cases hps : pysplit (c :: rest) with
    | nil => rw [hps] at hsp; exact absurd hsp (by simp)
    | cons x xs =>
      rw [hps] at hsp
      simp only [List.head?_cons, Option.some.injEq] at hsp
      exact ⟨xs, by rw [hsp]⟩
  obtain ⟨tl₃, hloop₂⟩ := reversedLoop_head ((pysplit (c :: rest)).length - 1)
    (pysplit (c :: rest)) [] (c :: tl₂) tail htail
    (fun a ha => not_prefix_of_marker a ha c hc tl₂)
  rw [hloop] at hloop₂
  have he : e = c :: tl₂ := by
    simpa using congrArg List.head? hloop₂
  refine ⟨e, hlk, ?_, ?_, ?_⟩
  · rw [he]; rfl
  · rcases hc with rfl | rfl
    · exact Or.inl rfl
    · exact Or.inr rfl
  · simp [enabled_state, hlk]

/-- C6 counterexample: `"+x a b c"` is accepted as a record whose
ENABLED field is the token `"+x"`, which is neither the string `"+"` nor
the string `"-"` — the marker is not the entire first token. -/
theorem parse_enabled_not_marker_counterexample :
    parse_module_line (str "+x a b c") =
      some [(str "ENABLED", str "+x"), (str "NAME", str "a"),
            (str "VERSION", str "b"), (str "PATH", str "c")] ∧
      str "+x" ≠ str "+" ∧ str "+x" ≠ str "-" :=
  ⟨by decide, by decide, by decide⟩

/-- C6 witness: the record parsed from `"+ a b c"`. -/
theorem parse_enabled_field_witness :
    ∃ e, dlookup (str "ENABLED")
        [(str "ENABLED", str "+"), (str "NAME", str "a"),
         (str "VERSION", str "b"), (str "PATH", str "c")] = some e ∧
      e.head? = (str "+ a b c").head? ∧
      ((str "+ a b c").head? = some '+' ∨ (str "+ a b c").head? = some '-') ∧
      (enabled_state [(str "ENABLED", str "+"), (str "NAME", str "a"),
        (str "VERSION", str "b"), (str "PATH", str "c")] = true ↔ e = str "+") :=
  parse_enabled_field_C6 (str "+ a b c") _ (by decide)

theorem process_line_some (enabled : Char) (data : Dict) (line : Tok)
    (ld : Dict) (hp : parse_module_line line = some ld) :
    process_line enabled data line =
      if dictEq data (ddel (str "ENABLED") ld) then enabled :: line.drop 1
      else line := by
  unfold process_line
  rw [hp]

theorem process_line_none (enabled : Char) (data : Dict) (line : Tok)
    (hp : parse_module_line line = none) :
    process_line enabled data line = line := by
  unfold process_line
  rw [hp]

/-- C1 (amended): the rewrite first strips each raw line of leading and
trailing whitespace (the read stage); thereafter every output line is
either the stripped input line unchanged, or — for a line that parses as
a record — the stripped input line with exactly its leading character
replaced by the desired marker. -/
theorem update_changes_only_marker_C1 (lines : List Tok) (state : Bool)
    (data : Dict) (content : List Tok) (d : Dict)
    (h : update_module_file lines state data = some (content, d)) (i : Nat) :
    content[i]? = lines[i]?.map pystrip ∨
      ∃ l, lines[i]? = some l ∧ parse_module_line (pystrip l) ≠ none ∧
        content[i]? = some ((if state then '+' else '-') :: (pystrip l).drop 1) := by
  obtain ⟨-, hc⟩ := update_eq_some lines state data content d h
  subst hc
  rw [List.getElem?_map, List.getElem?_map]
  cases hl : lines[i]? with
  | none => exact Or.inl rfl
  | some l =>
    simp only [Option.map_some']
    cases hp : parse_module_line (pystrip l) with
    | none => exact Or.inl (by rw [process_line_none _ _ _ hp])
    | some ld =>
      rw [process_line_some _ _ _ ld hp]
      by_cases hq : dictEq (ddel (str "ENABLED") data) (ddel (str "ENABLED") ld) = true
      · exact Or.inr ⟨l, rfl, by simp [hp], by rw [if_pos hq]⟩
      · exact Or.inl (by rw [if_neg hq])

/-- C1 counterexample: an opaque line carrying leading/trailing
whitespace is not written back byte-for-byte — the read stage strips it,
which is more than newline normalization. -/
theorem update_not_byte_identical_counterexample :
    update_module_file [str "  # comment "] true [(str "ENABLED", str "+")] =
      some ([str "# comment"], []) ∧
      str "# comment" ≠ str "  # comment " :=
  ⟨by decide, by decide⟩

/-- C1 witness: a one-line opaque file passes through (stripped). -/
theorem update_changes_only_marker_witness :
    ([str "x"] : List Tok)[0]? = ([str "x"] : List Tok)[0]?.map pystrip ∨
      ∃ l, ([str "x"] : List Tok)[0]? = some l ∧
        parse_module_line (pystrip l) ≠ none ∧
        ([str "x"] : List Tok)[0]? =
          some ((if true then '+' else '-') :: (pystrip l).drop 1) :=
  update_changes_only_marker_C1 [str "x"] true [(str "ENABLED", str "+")]
    [str "x"] [] (by decide) 0

/-- C3 (amended): matching is by the parsed identity (dict minus
ENABLED): every line whose stripped form parses to the provided identity
gets the desired marker regardless of its current marker (duplicates all
updated identically), and every other line — non-matching record lines
and opaque lines alike — is written back as its stripped form; with zero
matches the file is rewritten unchanged modulo per-line stripping and
newline normalization (not, as stated, modulo newline normalization
alone — see the counterexample). -/
theorem update_identity_matching_C3 (lines : List Tok) (state : Bool)
    (data : Dict) (content : List Tok) (d : Dict)
    (h : update_module_file lines state data = some (content, d))
    (i : Nat) (l : Tok) (hl : lines[i]? = some l) :
    ((∃ ld, parse_module_line (pystrip l) = some ld ∧
        dictEq (ddel (str "ENABLED") data) (ddel (str "ENABLED") ld) = true) →
      content[i]? = some ((if state then '+' else '-') :: (pystrip l).drop 1)) ∧
    ((∀ ld, parse_module_line (pystrip l) = some ld →
        dictEq (ddel (str "ENABLED") data) (ddel (str "ENABLED") ld) = false) →
      content[i]? = some (pystrip l)) := by
  obtain ⟨-, hc⟩ := update_eq_some lines state data content d h
  subst hc
  rw [List.getElem?_map, List.getElem?_map, hl]
  simp only [Option.map_some']
  constructor
  · rintro ⟨ld, hld, hq⟩
    rw [process_line_some _ _ _ ld hld, if_pos hq]
  · intro hno
    cases hp : parse_module_line (pystrip l) with
    | none => rw [process_line_none _ _ _ hp]
    | some ld =>
      rw [process_line_some _ _ _ ld hp, if_neg (by simp [hno ld hp])]

/-- C3 counterexample: with zero matching lines the file content is not
rewritten unchanged modulo newline normalization alone — padding inside
the line is stripped. -/
theorem update_no_match_strips_counterexample :
    update_module_file [str " x "] true [(str "ENABLED", str "+")] =
      some ([str "x"], []) ∧ str "x" ≠ str " x " :=
  ⟨by decide, by decide⟩

/-- C3 witness: the matching record line `"+ a b c"` gets its marker set
to `-` even though its current marker is `+`. -/
theorem update_identity_matching_witness :
    ((∃ ld, parse_module_line (pystrip (str "+ a b c")) = some ld ∧
        dictEq (ddel (str "ENABLED")
            [(str "ENABLED", str "-"), (str "NAME", str "a"),
             (str "VERSION", str "b"), (str "PATH", str "c")])
          (ddel (str "ENABLED") ld) = true) →
      ([str "- a b c"] : List Tok)[0]? =
        some ((if false then '+' else '-') :: (pystrip (str "+ a b c")).drop 1)) ∧
    ((∀ ld, parse_module_line (pystrip (str "+ a b c")) = some ld →
        dictEq (ddel (str "ENABLED")
            [(str "ENABLED", str "-"), (str "NAME", str "a"),
             (str "VERSION", str "b"), (str "PATH", str "c")])
          (ddel (str "ENABLED") ld) = false) →
      ([str "- a b c"] : List Tok)[0]? = some (pystrip (str "+ a b c"))) :=
  update_identity_matching_C3 [str "+ a b c"] false
    [(str "ENABLED", str "-"), (str "NAME", str "a"),
     (str "VERSION", str "b"), (str "PATH", str "c")]
    [str "- a b c"]
    [(str "NAME", str "a"), (str "VERSION", str "b"), (str "PATH", str "c")]
    (by decide) 0 (str "+ a b c") (by decide)

/-- C4 (amended): updating with a state whose marker every matching line
already carries rewrites the file to the stripped input lines — a no-op
modulo per-line whitespace stripping and newline normalization; neither
"byte-identical modulo newline normalization alone" (padding is
stripped) nor unconditional idempotence (a duplicate-identity line with
the opposite marker is flipped — see the counterexample) holds. -/
theorem update_current_state_noop_C4 (lines : List Tok) (state : Bool)
    (data : Dict) (content : List Tok) (d : Dict)
    (h : update_module_file lines state data = some (content, d))
    (hmk : ∀ l ∈ lines, ∀ ld, parse_module_line (pystrip l) = some ld →
      dictEq (ddel (str "ENABLED") data) (ddel (str "ENABLED") ld) = true →
      (pystrip l).head? = some (if state then '+' else '-')) :
    content = lines.map pystrip := by
  obtain ⟨-, hc⟩ := update_eq_some lines state data content d h
  subst hc
  clear h
  revert hmk
  induction lines with
  | nil => intro _; rfl
  | cons a as ih =>
    intro hmk
    simp only [List.map_cons, List.cons.injEq]
    refine ⟨?_, ih (fun l hl => hmk l (List.mem_cons_of_mem a hl))⟩
    cases hp : parse_module_line (pystrip a) with
    | none => rw [process_line_none _ _ _ hp]
    | some ld =>
      rw [process_line_some _ _ _ ld hp]
      by_cases hq : dictEq (ddel (str "ENABLED") data) (ddel (str "ENABLED") ld) = true
      · rw [if_pos hq]
        exact head_cons_drop (pystrip a) _ (hmk a (List.mem_cons_self a as) ld hp hq)
      · rw [if_neg hq]

/-- C4 counterexample: the file holds two lines of the same identity
with opposite markers; setting the `-` record to its current state
(disabled) flips the `+` duplicate and strips the padding, so the output
is not byte-identical to the input modulo newline normalization. -/
theorem update_flips_duplicate_counterexample :
    update_module_file [str "+ a b c ", str "- a b c"] false
        [(str "ENABLED", str "-"), (str "NAME", str "a"),
         (str "VERSION", str "b"), (str "PATH", str "c")] =
      some ([str "- a b c", str "- a b c"],
        [(str "NAME", str "a"), (str "VERSION", str "b"), (str "PATH", str "c")]) ∧
      ([str "- a b c", str "- a b c"] : List Tok) ≠
        [str "+ a b c ", str "- a b c"] :=
  ⟨by decide, by decide⟩

/-- C4 witness: re-enabling the already-enabled record of a one-line
file leaves the (already stripped) content unchanged. -/
theorem update_current_state_noop_witness :
    ([str "+ a b c"] : List Tok) = [str "+ a b c"].map pystrip :=
  update_current_state_noop_C4 [str "+ a b c"] true
    [(str "ENABLED", str "+"), (str "NAME", str "a"),
     (str "VERSION", str "b"), (str "PATH", str "c")]
    [str "+ a b c"]
    [(str "NAME", str "a"), (str "VERSION", str "b"), (str "PATH", str "c")]
    (by decide)
    (by
      intro l hl ld hld hq
      rw [List.mem_singleton] at hl
      subst hl
      decide)

/-- C10: `update_module_file` deletes the `"ENABLED"` key from the
caller-supplied record dict (`del data["ENABLED"]`) before matching, so
after every successful call the caller's dict no longer contains the
key (the UI layer at line 322 passes a copy for this reason). -/
theorem update_mutates_data_C10 (lines : List Tok) (state : Bool)
    (data : Dict) (content : List Tok) (d : Dict)
    (h : update_module_file lines state data = some (content, d))
    (hnd : (data.map Prod.fst).Nodup) :
    dlookup (str "ENABLED") d = none := by
  obtain ⟨hd, -⟩ := update_eq_some lines state data content d h
  subst hd
  exact dlookup_ddel_self (str "ENABLED") data hnd

/-- C10 witness: after the call, `"ENABLED"` is gone from the dict. -/
theorem update_mutates_data_witness :
    dlookup (str "ENABLED") [(str "NAME", str "n")] = none :=
  update_mutates_data_C10 [str "x"] true
    [(str "ENABLED", str "+"), (str "NAME", str "n")] [str "x"]
    [(str "NAME", str "n")] (by decide) (by decide)

/-- C7: `is_compatible` is a conjunction over present keys only: it is
`true` iff, for every entry of `MAYA_ARGUMENTS` whose key the record
carries, the stored value equals the environment's value; absent keys
impose no constraint, so a record carrying none of the keys is
compatible in every environment. -/
theorem is_compatible_conjunctive_C7 (mayaversion platform locale : Tok)
    (data : Dict) :
    is_compatible (MAYA_ARGUMENTS mayaversion platform locale) data = true ↔
      ∀ kv ∈ MAYA_ARGUMENTS mayaversion platform locale, ∀ w,
        dlookup kv.1 data = some w → w = kv.2 := by
  unfold is_compatible
  rw [List.all_eq_true]
  constructor
  · intro hall kv hkv w hw
    have h₁ := hall kv hkv
    unfold compatible_key at h₁
    rw [hw] at h₁
    exact of_decide_eq_true h₁
  · intro hk kv hkv
    unfold compatible_key
    cases hlk : dlookup kv.1 data with
    | none => rfl
    | some w => exact decide_eq_true (hk kv hkv w hlk)

/-- C7 witness: a record carrying no recognized key is compatible. -/
theorem is_compatible_conjunctive_witness :
    is_compatible (MAYA_ARGUMENTS (str "2024") (str "win") (str "en")) [] = true :=
  (is_compatible_conjunctive_C7 (str "2024") (str "win") (str "en") []).mpr
    (fun kv hkv w hw => by simp [dlookup] at hw)

theorem is_module_file_eq (f : Tok) :
    is_module_file f = true ↔
      MOD_EXTENSIONS.isSuffixOf (pylower f) = true ∧
        (str "moduleManager").isPrefixOf f = false := by
  simp [is_module_file, Bool.and_eq_true, Bool.not_eq_true']

theorem mem_modules_unsorted (dirs : List SearchDir) (p : ModPath) :
    p ∈ modules_unsorted dirs ↔
      ∃ d ∈ dirs, d.path_exists = true ∧ p.dir = d.path ∧ p.base ∈ d.files ∧
        is_module_file p.base = true := by
  obtain ⟨pd, pb⟩ := p
  induction dirs with
  | nil => simp [modules_unsorted]
  | cons d dirs ih =>
    unfold modules_unsorted
    by_cases hex : d.path_exists = true
    · rw [if_pos hex]
      simp only [List.mem_append, List.mem_map, List.mem_filter, ih,
        List.mem_cons, ModPath.mk.injEq]
      constructor
      · rintro (⟨f, hf, hdp, hfp⟩ | ⟨d₂, hd₂, h⟩)
        · subst hfp
          exact ⟨d, Or.inl rfl, hex, hdp.symm, hf.1, hf.2⟩
        · exact ⟨d₂, Or.inr hd₂, h⟩
      · rintro ⟨d₂, hd₂ | hd₂, hx, hdir, hbase, hok⟩
        · subst hd₂
          exact Or.inl ⟨pb, ⟨hbase, hok⟩, hdir.symm, rfl⟩
        · exact Or.inr ⟨d₂, hd₂, hx, hdir, hbase, hok⟩
    · rw [if_neg hex, ih]
      constructor
      · rintro ⟨d₂, hd₂, h⟩
        exact ⟨d₂, List.mem_cons_of_mem d hd₂, h⟩
      · rintro ⟨d₂, hd₂, h⟩
        rcases List.mem_cons.mp hd₂ with rfl | hmem
        · exact absurd h.1 hex
        · exact ⟨d₂, hmem, h⟩

/-- C8: discovery returns exactly the files of the existing search
directories whose lowercased name ends in the descriptor extension and
whose name does not start with the reserved `moduleManager` prefix (a
non-existent directory is silently skipped), arranged in order of the
file base name (not the full path). -/
theorem get_module_file_paths_spec_C8 (dirs : List SearchDir) :
    (get_module_file_paths dirs).Perm (modules_unsorted dirs) ∧
    List.Sorted base_le (get_module_file_paths dirs) ∧
    ∀ p : ModPath, p ∈ get_module_file_paths dirs ↔
      ∃ d ∈ dirs, d.path_exists = true ∧ p.dir = d.path ∧ p.base ∈ d.files ∧
        MOD_EXTENSIONS.isSuffixOf (pylower p.base) = true ∧
        (str "moduleManager").isPrefixOf p.base = false := by
  refine ⟨List.perm_insertionSort base_le (modules_unsorted dirs),
    List.sorted_insertionSort base_le (modules_unsorted dirs), fun p => ?_⟩
  rw [get_module_file_paths, List.mem_insertionSort, mem_modules_unsorted]
  constructor
  · rintro ⟨d, hd, hx, hdir, hbase, hok⟩
    exact ⟨d, hd, hx, hdir, hbase, (is_module_file_eq p.base).mp hok⟩
  · rintro ⟨d, hd, hx, hdir, hbase, hsuf, hpre⟩
    exact ⟨d, hd, hx, hdir, hbase, (is_module_file_eq p.base).mpr ⟨hsuf, hpre⟩⟩

/-- C8 witness: the two-directory example — a non-existent directory
`A` and a directory `B` holding `zzz.mod`, `aaa.mod`, and the reserved
`moduleManagerControl.mod` — yields `aaa.mod` then `zzz.mod`, sorted by
base name. -/
theorem get_module_file_paths_witness :
    get_module_file_paths
        [⟨str "A", false, [str "zzz.mod"]⟩,
         ⟨str "B", true,
          [str "zzz.mod", str "aaa.mod", str "moduleManagerControl.mod"]⟩] =
      [⟨str "B", str "aaa.mod"⟩, ⟨str "B", str "zzz.mod"⟩] ∧
    List.Sorted base_le (get_module_file_paths
        [⟨str "A", false, [str "zzz.mod"]⟩,
         ⟨str "B", true,
          [str "zzz.mod", str "aaa.mod", str "moduleManagerControl.mod"]⟩]) :=
  ⟨by decide, (get_module_file_paths_spec_C8
    [⟨str "A", false, [str "zzz.mod"]⟩,
     ⟨str "B", true,
      [str "zzz.mod", str "aaa.mod", str "moduleManagerControl.mod"]⟩]).2.1⟩

end ModuleManager
